import Mathlib

/-!
Verification of the document versioning and crash-recovery core of
`src/src-tauri/src/commands/documents.rs`.

The Rust code is shallowly embedded:
* `serde_json::Value` is embedded as the inductive `Json`; `PartialEq` on
  `Value` is structural equality, embedded as `Eq` on `Json` (with a
  hand-rolled decision procedure, since the type nests `List`).
* `serde_json::to_string` (compact rendering, used only for the `size`
  field) is embedded as `Json.render`.
* `DateTime<Utc>` instants and the `i64` results of `.timestamp()` are both
  embedded as `Int`; each `Utc::now()` call site becomes an explicit `now`
  argument, and each `Uuid::new_v4()` call site an explicit id argument.
* fallible I/O and parsing are embedded with `Option`/`Except`; the two
  `unsafe get_unchecked` accesses in `add_version` are embedded as `·[i]?`
  (`Option`) lookups so that their in-boundedness is a provable statement.
-/

/-- Structured content values, embedding `serde_json::Value`. -/
inductive Json where
  | null
  | bool (b : Bool)
  | num (n : Int)
  | str (s : String)
  | arr (elems : List Json)
  | obj (fields : List (String × Json))
deriving Repr

mutual

/-- Structural equality test on `Json`, embedding `PartialEq` for `serde_json::Value`. -/
def Json.beq : Json → Json → Bool
  | .null, .null => true
  | .bool a, .bool b => a == b
  | .num a, .num b => a == b
  | .str a, .str b => a == b
  | .arr a, .arr b => Json.beqList a b
  | .obj a, .obj b => Json.beqFields a b
  | _, _ => false

def Json.beqList : List Json → List Json → Bool
  | [], [] => true
  | x :: xs, y :: ys => Json.beq x y && Json.beqList xs ys
  | _, _ => false

def Json.beqFields : List (String × Json) → List (String × Json) → Bool
  | [], [] => true
  | (k, v) :: xs, (k2, v2) :: ys => k == k2 && Json.beq v v2 && Json.beqFields xs ys
  | _, _ => false

end

mutual

theorem Json.beq_iff : ∀ (a b : Json), Json.beq a b = true ↔ a = b
  | .null, .null => by simp [Json.beq]
  | .null, .bool _ | .null, .num _ | .null, .str _ | .null, .arr _ | .null, .obj _ => by
      simp [Json.beq]
  | .bool _, .null | .bool _, .num _ | .bool _, .str _ | .bool _, .arr _ | .bool _, .obj _ => by
      simp [Json.beq]
  | .bool _, .bool _ => by simp [Json.beq]
  | .num _, .null | .num _, .bool _ | .num _, .str _ | .num _, .arr _ | .num _, .obj _ => by
      simp [Json.beq]
  | .num _, .num _ => by simp [Json.beq]
  | .str _, .null | .str _, .bool _ | .str _, .num _ | .str _, .arr _ | .str _, .obj _ => by
      simp [Json.beq]
  | .str _, .str _ => by simp [Json.beq]
  | .arr _, .null | .arr _, .bool _ | .arr _, .num _ | .arr _, .str _ | .arr _, .obj _ => by
      simp [Json.beq]
  | .arr a, .arr b => by simp [Json.beq, Json.beqList_iff a b]
  | .obj _, .null | .obj _, .bool _ | .obj _, .num _ | .obj _, .str _ | .obj _, .arr _ => by
      simp [Json.beq]
  | .obj a, .obj b => by simp [Json.beq, Json.beqFields_iff a b]

theorem Json.beqList_iff : ∀ (a b : List Json), Json.beqList a b = true ↔ a = b
  | [], [] => by simp [Json.beqList]
  | [], _ :: _ => by simp [Json.beqList]
  | _ :: _, [] => by simp [Json.beqList]
  | x :: xs, y :: ys => by
      simp [Json.beqList, Json.beq_iff x y, Json.beqList_iff xs ys]

theorem Json.beqFields_iff : ∀ (a b : List (String × Json)), Json.beqFields a b = true ↔ a = b
  | [], [] => by simp [Json.beqFields]
  | [], _ :: _ => by simp [Json.beqFields]
  | _ :: _, [] => by simp [Json.beqFields]
  | (k, v) :: xs, (k2, v2) :: ys => by
      simp [Json.beqFields, Json.beq_iff v v2, Json.beqFields_iff xs ys, and_assoc]

end

instance : DecidableEq Json := fun a b => decidable_of_iff (Json.beq a b = true) (Json.beq_iff a b)

/-- One hexadecimal digit, as used when escaping control characters. -/
def hexDigit (n : Nat) : String :=
  if n < 10 then String.singleton (Char.ofNat (48 + n))
  else String.singleton (Char.ofNat (87 + n))

/-- JSON string escaping of a single character (compact `serde_json` style). -/
def Json.escapeChar (c : Char) : String :=
  if c = '"' then "\\\""
  else if c = '\\' then "\\\\"
  else if c = '\n' then "\\n"
  else if c = '\r' then "\\r"
  else if c = '\t' then "\\t"
  else if c.toNat = 8 then "\\b"
  else if c.toNat = 12 then "\\f"
  else if c.toNat < 32 then "\\u00" ++ hexDigit (c.toNat / 16) ++ hexDigit (c.toNat % 16)
  else String.singleton c

/-- Rendering of a JSON string literal. -/
def Json.renderString (s : String) : String :=
  "\"" ++ String.join (s.toList.map Json.escapeChar) ++ "\""

mutual

/-- Compact rendering, embedding `serde_json::Value::to_string` (only used for
the `size` field of a version). -/
def Json.render : Json → String
  | .null => "null"
  | .bool true => "true"
  | .bool false => "false"
  | .num n => toString n
  | .str s => Json.renderString s
  | .arr xs => "[" ++ Json.renderList xs ++ "]"
  | .obj fs => "\x7b" ++ Json.renderFields fs ++ "\x7d"

def Json.renderList : List Json → String
  | [] => ""
  | [x] => Json.render x
  | x :: y :: xs => Json.render x ++ "," ++ Json.renderList (y :: xs)

def Json.renderFields : List (String × Json) → String
  | [] => ""
  | [(k, v)] => Json.renderString k ++ ":" ++ Json.render v
  | (k, v) :: f :: fs => Json.renderString k ++ ":" ++ Json.render v ++ "," ++ Json.renderFields (f :: fs)

end

/-- The `json!({ "content": "" })` sentinel used for the permanent baseline version. -/
def emptyContent : Json := Json.obj [("content", Json.str "")]

/-- `MAX_VERSIONS` (documents.rs line 14). -/
def MAX_VERSIONS : Nat := 10

/-- `AUTO_SAVE_INTERVAL` in seconds (documents.rs line 16); the Rust `u64`
constant is compared via `i64`, embedded as `Int`. -/
def AUTO_SAVE_INTERVAL : Int := 30

/-- Embeds `struct DocumentVersion` (documents.rs lines 57-65). -/
structure DocumentVersion where
  id : String
  content : Json
  created_at : Int
  is_auto_save : Bool
  size : Nat
  timestamp : Int
deriving Repr, DecidableEq

/-- Embeds `DocumentVersion::new` (documents.rs lines 69-81); the
`Uuid::new_v4()` and `Utc::now()` reads are the `id` and `now` arguments. -/
def DocumentVersion.new (id : String) (now : Int) (content : Json) (is_auto_save : Bool) :
    DocumentVersion :=
  { id := id
    content := content
    created_at := now
    is_auto_save := is_auto_save
    size := (Json.render content).utf8ByteSize
    timestamp := now }

/-- Embeds `struct Document` (documents.rs lines 86-97). -/
structure Document where
  id : String
  title : String
  content : Json
  file_path : Option String
  versions : List DocumentVersion
  created_at : Int
  updated_at : Int
  is_dirty : Bool
  last_auto_save : Option Int
  last_save_time : Option Int
deriving Repr, DecidableEq

/-- Embeds `.iter().position(|v| v.content == content)` over a version list
(documents.rs line 135, applied after `skip(1)`). -/
def findDup (content : Json) : List DocumentVersion → Option Nat
  | [] => none
  | v :: rest => if v.content = content then some 0 else (findDup content rest).map (· + 1)

/-- Embeds the in-place update `self.versions[index].timestamp = now.timestamp()`
(documents.rs line 140). -/
def touchAt : List DocumentVersion → Nat → Int → List DocumentVersion
  | [], _, _ => []
  | v :: rest, 0, now => { v with timestamp := now } :: rest
  | v :: rest, n + 1, now => v :: touchAt rest n now

/-- The eviction `while` loop of `add_version` (documents.rs lines 164-166),
with an explicit fuel; each iteration removes the entry at index 1. `evict`
below instantiates the fuel with the list length, which is enough for the
loop condition to be false on exit (see `evictLoop_exit`). -/
def evictLoop : Nat → List DocumentVersion → List DocumentVersion
  | 0, versions => versions
  | fuel + 1, versions =>
    if versions.length > MAX_VERSIONS + 1 ∧ versions.length > 1 then
      evictLoop fuel (versions.eraseIdx 1)
    else versions

/-- Runs the eviction loop to completion. -/
def evict (versions : List DocumentVersion) : List DocumentVersion :=
  evictLoop versions.length versions

/-- Embeds `Document::add_version` (documents.rs lines 130-184). The returned
`Option DocumentVersion` is the borrowed `&DocumentVersion`; the source reads
it with `unsafe get_unchecked`, embedded here as a checked `·[i]?` lookup. -/
def Document.add_version (doc : Document) (vid : String) (now : Int) (content : Json)
    (is_auto_save : Bool) : Document × Option DocumentVersion :=
  let existing_index := (findDup content (doc.versions.drop 1)).map (· + 1)
  match existing_index with
  | some index =>
    let versions := touchAt doc.versions index now
    let doc :=
      if is_auto_save then
        { doc with versions := versions, last_auto_save := some now }
      else
        { doc with versions := versions, content := content, updated_at := now,
                   last_save_time := some now, is_dirty := false }
    (doc, versions[index]?)
  | none =>
    let version := DocumentVersion.new vid now content is_auto_save
    let versions := evict (doc.versions ++ [version])
    let doc :=
      if is_auto_save then
        { doc with versions := versions, content := content, updated_at := now,
                   last_auto_save := some now }
      else
        { doc with versions := versions, content := content, updated_at := now,
                   last_save_time := some now, is_dirty := false }
    (doc, versions[versions.length - 1]?)

/-- Embeds `Document::new` (documents.rs lines 101-127). `docId` is the
document's UUID, `vid0`/`now0` the UUID/clock read of the baseline version,
and `vid1`/`now1` those of the `add_version` call made for non-empty initial
content. -/
def Document.new (docId vid0 vid1 : String) (now now0 now1 : Int) (title : String)
    (content : Json) : Document :=
  let doc : Document :=
    { id := docId
      title := title
      content := emptyContent
      file_path := none
      versions := []
      created_at := now
      updated_at := now
      is_dirty := false
      last_auto_save := none
      last_save_time := none }
  let doc := { doc with versions := doc.versions ++ [DocumentVersion.new vid0 now0 emptyContent false] }
  if content ≠ emptyContent then (doc.add_version vid1 now1 content false).1 else doc

/-- Embeds `Document::get_version` (documents.rs lines 187-189). -/
def Document.get_version (doc : Document) (version_id : String) : Option DocumentVersion :=
  doc.versions.find? (fun v => v.id == version_id)

/-- One recorded `add_version` call: the UUID read, the clock read, the
content argument and the `is_auto_save` flag. -/
structure AddOp where
  vid : String
  now : Int
  content : Json
  is_auto_save : Bool
deriving Repr

/-- Applies a sequence of `add_version` calls to a document. -/
def applyOps (doc : Document) : List AddOp → Document
  | [] => doc
  | o :: ops => applyOps (doc.add_version o.vid o.now o.content o.is_auto_save).1 ops

/-- Error taxonomy of `enum DocumentError` (documents.rs lines 18-40); only
the constructors reachable from the embedded operations are modelled. -/
inductive DocumentError where
  | NotFound
  | Serde
  | Io
deriving Repr, DecidableEq

/-- Contents of one recovery file on disk: either it reads and deserializes
into a `Document`, or reading/parsing it fails. -/
inductive FileData where
  | valid (doc : Document)
  | invalid
deriving Repr, DecidableEq

/-- Embeds `recover_document` (documents.rs lines 532-555). The recovery
directory is the association list `files` from document id to the data of
`recovery_{id}.json`; `files.lookup doc_id = none` embeds
`!recovery_path.exists()`. The `window.emit` side channel is dropped. -/
def recover_document (files : List (String × FileData)) (doc_id : String) :
    Except DocumentError Document :=
  match files.lookup doc_id with
  | none => .error .NotFound
  | some .invalid => .error .Serde
  | some (.valid doc) => .ok { doc with is_dirty := true }

/-- One entry of the recovery directory as seen by `read_dir`: whether the
path `is_file()`, its `extension()`, and the outcome of reading + parsing it
as a `Document` (`none` when unreadable or unparsable). -/
structure FsEntry where
  isFile : Bool
  ext : Option String
  parsed : Option Document
deriving Repr, DecidableEq

/-- State of the recovery directory: whether `dir.exists()`, and the outcome
of `read_dir` when it is attempted. -/
structure RecoveryDirState where
  present : Bool
  readDir : Except DocumentError (List FsEntry)

/-- Embeds `get_recovery_files` (documents.rs lines 281-297): a missing
directory short-circuits to `Ok(vec![])` before any read is attempted;
otherwise the entries are filtered to regular files with a `json` extension. -/
def get_recovery_files (st : RecoveryDirState) : Except DocumentError (List FsEntry) :=
  if st.present = false then .ok []
  else
    match st.readDir with
    | .error e => .error e
    | .ok entries => .ok (entries.filter fun e => e.isFile && e.ext == some "json")

/-- Embeds `list_recovery_files` (documents.rs lines 512-528): every
enumerated file that reads and parses contributes a `Document`; read and
parse failures are logged and skipped. -/
def list_recovery_files (st : RecoveryDirState) : Except DocumentError (List Document) :=
  match get_recovery_files st with
  | .error e => .error e
  | .ok files => .ok (files.filterMap fun e => e.parsed)

/-- Embeds `auto_save_document` (documents.rs lines 390-434). The `content`
argument is the already-parsed JSON body (parse failures happen before the
logic modelled here). The returned `Bool` records whether the auto-save
branch ran, i.e. whether an auto-save version was added and a recovery
snapshot written. Id/clock reads of the inner `Document::new` and
`add_version` calls are explicit arguments, `now` being the `Utc::now()`
read at line 406. -/
def auto_save_document (docId vid0 vid1 vid2 : String) (tNew t0 t1 now : Int)
    (content : Json) : Document × Bool :=
  let doc := Document.new docId vid0 vid1 tNew t0 t1 "Auto-saved Document" content
  if doc.file_path = none then
    (doc, false)
  else if (match doc.last_auto_save with
           | some last => decide (now - last < AUTO_SAVE_INTERVAL)
           | none => false) then
    (doc, false)
  else
    let doc := (doc.add_version vid2 now doc.content true).1
    let doc := { doc with last_auto_save := some now, is_dirty := true }
    (doc, true)

/-- Serialization of an `Option<String>` field (serde: `None` ↦ `null`). -/
def jsonOfOptStr : Option String → Json
  | none => .null
  | some s => .str s

/-- Serialization of an `Option` instant field (serde: `None` ↦ `null`). -/
def jsonOfOptInt : Option Int → Json
  | none => .null
  | some t => .num t

/-- First-match field lookup in a serialized JSON object. -/
def getField : List (String × Json) → String → Option Json
  | [], _ => none
  | (k, v) :: rest, key => if k = key then some v else getField rest key

/-- Decodes a JSON string field. -/
def Json.asStr : Json → Option String
  | .str s => some s
  | _ => none

/-- Decodes a signed integer field (an instant or timestamp). -/
def Json.asInt : Json → Option Int
  | .num n => some n
  | _ => none

/-- Decodes a `usize` field: a JSON number that is a nonnegative integer. -/
def Json.asNat : Json → Option Nat
  | .num (Int.ofNat n) => some n
  | _ => none

/-- Decodes a JSON boolean field. -/
def Json.asBool : Json → Option Bool
  | .bool b => some b
  | _ => none

/-- Decodes an `Option<String>` field. -/
def Json.asOptStr : Json → Option (Option String)
  | .null => some none
  | .str s => some (some s)
  | _ => none

/-- Decodes an optional instant field. -/
def Json.asOptInt : Json → Option (Option Int)
  | .null => some none
  | .num n => some (some n)
  | _ => none

/-- Decodes the elements of the serialized `versions` array. -/
def Json.asArr : Json → Option (List Json)
  | .arr xs => some xs
  | _ => none

/-- The persisted form of a `DocumentVersion`: the derived serde `Serialize`
writes the fields in declaration order (documents.rs lines 57-65). -/
def DocumentVersion.toJson (v : DocumentVersion) : Json :=
  .obj [("id", .str v.id),
        ("content", v.content),
        ("created_at", .num v.created_at),
        ("is_auto_save", .bool v.is_auto_save),
        ("size", .num (v.size : Int)),
        ("timestamp", .num v.timestamp)]

/-- The derived serde `Deserialize` for `DocumentVersion`: every field must
be present with the right type. -/
def DocumentVersion.fromJson (j : Json) : Option DocumentVersion :=
  match j with
  | .obj fs => do
      let id ← (getField fs "id").bind Json.asStr
      let content ← getField fs "content"
      let created_at ← (getField fs "created_at").bind Json.asInt
      let is_auto_save ← (getField fs "is_auto_save").bind Json.asBool
      let size ← (getField fs "size").bind Json.asNat
      let timestamp ← (getField fs "timestamp").bind Json.asInt
      some { id := id, content := content, created_at := created_at,
             is_auto_save := is_auto_save, size := size, timestamp := timestamp }
  | _ => none

/-- Decodes the serialized `versions` array elementwise; any bad element
fails the whole deserialization. -/
def decodeVersions : List Json → Option (List DocumentVersion)
  | [] => some []
  | j :: rest => do
      let v ← DocumentVersion.fromJson j
      let vs ← decodeVersions rest
      some (v :: vs)

/-- The persisted form of a `Document` (primary save file and recovery
snapshot share this schema): the derived serde `Serialize` writes the fields
in declaration order (documents.rs lines 86-97). -/
def Document.toJson (d : Document) : Json :=
  .obj [("id", .str d.id),
        ("title", .str d.title),
        ("content", d.content),
        ("file_path", jsonOfOptStr d.file_path),
        ("versions", .arr (d.versions.map DocumentVersion.toJson)),
        ("created_at", .num d.created_at),
        ("updated_at", .num d.updated_at),
        ("is_dirty", .bool d.is_dirty),
        ("last_auto_save", jsonOfOptInt d.last_auto_save),
        ("last_save_time", jsonOfOptInt d.last_save_time)]

/-- The derived serde `Deserialize` for `Document`. -/
def Document.fromJson (j : Json) : Option Document :=
  match j with
  | .obj fs => do
      let id ← (getField fs "id").bind Json.asStr
      let title ← (getField fs "title").bind Json.asStr
      let content ← getField fs "content"
      let file_path ← (getField fs "file_path").bind Json.asOptStr
      let versions ← ((getField fs "versions").bind Json.asArr).bind decodeVersions
      let created_at ← (getField fs "created_at").bind Json.asInt
      let updated_at ← (getField fs "updated_at").bind Json.asInt
      let is_dirty ← (getField fs "is_dirty").bind Json.asBool
      let last_auto_save ← (getField fs "last_auto_save").bind Json.asOptInt
      let last_save_time ← (getField fs "last_save_time").bind Json.asOptInt
      some { id := id, title := title, content := content, file_path := file_path,
             versions := versions, created_at := created_at, updated_at := updated_at,
             is_dirty := is_dirty, last_auto_save := last_auto_save,
             last_save_time := last_save_time }
  | _ => none

/-- Abstract single step of the version window kept by eviction: appending a
fresh content grows the window until it holds `MAX_VERSIONS` entries, after
which the oldest entry is dropped. Used only to state the proof invariant
for the eviction scenario. -/
def windowStep (w : List Json) (c : Json) : List Json :=
  if w.length < MAX_VERSIONS then w ++ [c] else w.tail ++ [c]

/-- Iterates `windowStep` over a list of added contents. -/
def windowFold (w : List Json) : List Json → List Json
  | [] => w
  | c :: cs => windowFold (windowStep w c) cs

/-- The last `MAX_VERSIONS` elements of a list. -/
def lastN (l : List Json) : List Json := l.drop (l.length - MAX_VERSIONS)

/-- Sample operation sequence: 100 pairwise-distinct non-empty contents. -/
def ops100 : List AddOp :=
  (List.range 100).map (fun i => ⟨"v" ++ toString i, (i : Int), Json.num (i : Int), false⟩)

/-- Sample document holding the baseline version plus one version with
content `"a"`. -/
def sampleDoc : Document :=
  Document.new "d0" "b0" "w0" 0 0 1 "T" (Json.str "a")

/-- Sample recovery directory contents for `recover_document`. -/
def sampleFiles : List (String × FileData) :=
  [("doc1", FileData.valid sampleDoc), ("doc2", FileData.invalid)]

/-- Recovery directory that does not exist on disk. -/
def absentDir : RecoveryDirState := { present := false, readDir := .ok [] }

/-- A `read_dir` entry that is a regular `.json` file holding a parsable
document. -/
def sampleEntry : FsEntry := { isFile := true, ext := some "json", parsed := some sampleDoc }

/-- Recovery directory holding `sampleEntry` plus a subdirectory and a
non-json file, which enumeration must skip. -/
def presentDir : RecoveryDirState :=
  { present := true
    readDir := .ok [sampleEntry,
                    { isFile := false, ext := some "json", parsed := none },
                    { isFile := true, ext := some "txt", parsed := none }] }

theorem findDup_some {c : Json} {vs : List DocumentVersion} {i : Nat}
    (h : findDup c vs = some i) : ∃ v, vs[i]? = some v ∧ v.content = c := by
  induction vs generalizing i with
  | nil => simp [findDup] at h
  | cons v rest ih =>
    rw [findDup] at h
    split at h
    · next hc =>
      injection h with h
      subst h
      exact ⟨v, by simp, hc⟩
    · next hc =>
      rw [Option.map_eq_some'] at h
      obtain ⟨j, hj, rfl⟩ := h
      obtain ⟨w, hw, hwc⟩ := ih hj
      exact ⟨w, by simpa using hw, hwc⟩

theorem findDup_none {c : Json} {vs : List DocumentVersion}
    (h : ∀ v ∈ vs, v.content ≠ c) : findDup c vs = none := by
  induction vs with
  | nil => rfl
  | cons v rest ih =>
    rw [findDup, if_neg (h v (by simp)), ih (fun w hw => h w (by simp [hw]))]
    rfl

theorem findDup_isSome {c : Json} {vs : List DocumentVersion} {i : Nat} {v : DocumentVersion}
    (hv : vs[i]? = some v) (hc : v.content = c) : (findDup c vs).isSome := by
  induction vs generalizing i with
  | nil => simp at hv
  | cons w rest ih =>
    rw [findDup]
    split
    · simp
    · next hne =>
      cases i with
      | zero =>
        simp at hv
        subst hv
        exact absurd hc hne
      | succ j =>
        simp only [List.getElem?_cons_succ] at hv
        simpa using ih hv

theorem touchAt_length : ∀ (vs : List DocumentVersion) (i : Nat) (t : Int),
    (touchAt vs i t).length = vs.length
  | [], _, _ => rfl
  | _ :: _, 0, _ => rfl
  | v :: rest, n + 1, t => by simp [touchAt, touchAt_length rest n t]

theorem touchAt_getElem_self {vs : List DocumentVersion} {i : Nat} {v : DocumentVersion} (t : Int)
    (h : vs[i]? = some v) : (touchAt vs i t)[i]? = some { v with timestamp := t } := by
  induction vs generalizing i with
  | nil => simp at h
  | cons w rest ih =>
    cases i with
    | zero =>
      simp at h
      subst h
      simp [touchAt]
    | succ n =>
      simp only [List.getElem?_cons_succ] at h
      simpa [touchAt] using ih h

theorem touchAt_getElem_ne {vs : List DocumentVersion} {i : Nat} (t : Int) (j : Nat)
    (hj : j ≠ i) : (touchAt vs i t)[j]? = vs[j]? := by
  induction vs generalizing i j with
  | nil => simp [touchAt]
  | cons w rest ih =>
    cases i with
    | zero =>
      cases j with
      | zero => exact absurd rfl hj
      | succ m => simp [touchAt]
    | succ n =>
      cases j with
      | zero => simp [touchAt]
      | succ m =>
        simp only [touchAt, List.getElem?_cons_succ]
        exact ih m (fun hh => hj (by simp [hh]))

theorem evictLoop_getElem_zero : ∀ (fuel : Nat) (vs : List DocumentVersion),
    (evictLoop fuel vs)[0]? = vs[0]? := by
  intro fuel
  induction fuel with
  | zero => intro vs; rfl
  | succ f ih =>
    intro vs
    rw [evictLoop]
    split
    · next hcond =>
      match vs, hcond with
      | a :: b :: t, _ =>
        show (evictLoop f ((a :: b :: t).eraseIdx 1))[0]? = _
        rw [show (a :: b :: t).eraseIdx 1 = a :: t from rfl, ih]
        simp
    · rfl

theorem evictLoop_length_le : ∀ (fuel : Nat) (vs : List DocumentVersion),
    vs.length ≤ MAX_VERSIONS + 1 + fuel → (evictLoop fuel vs).length ≤ MAX_VERSIONS + 1 := by
  intro fuel
  induction fuel with
  | zero => intro vs h; simpa [evictLoop] using h
  | succ f ih =>
    intro vs h
    rw [evictLoop]
    split
    · next hcond =>
      match vs, hcond, h with
      | a :: b :: t, _, h =>
        apply ih
        rw [show (a :: b :: t).eraseIdx 1 = a :: t from rfl]
        simp only [List.length_cons] at h ⊢
        omega
    · next hcond =>
      simp only [MAX_VERSIONS, not_and, gt_iff_lt, not_lt] at hcond ⊢
      omega

theorem evict_getElem_zero (vs : List DocumentVersion) : (evict vs)[0]? = vs[0]? :=
  evictLoop_getElem_zero vs.length vs

theorem evict_length_le (vs : List DocumentVersion) : (evict vs).length ≤ MAX_VERSIONS + 1 :=
  evictLoop_length_le vs.length vs (by omega)

theorem evictLoop_of_le {vs : List DocumentVersion} (fuel : Nat)
    (h : vs.length ≤ MAX_VERSIONS + 1) : evictLoop fuel vs = vs := by
  cases fuel with
  | zero => rfl
  | succ f =>
    rw [evictLoop, if_neg]
    intro hcond
    omega

theorem evict_of_le {vs : List DocumentVersion} (h : vs.length ≤ MAX_VERSIONS + 1) :
    evict vs = vs :=
  evictLoop_of_le vs.length h

theorem evict_cons_cons {a b : DocumentVersion} {t : List DocumentVersion}
    (h : (a :: b :: t).length = MAX_VERSIONS + 2) : evict (a :: b :: t) = a :: t := by
  rw [evict, show (a :: b :: t).length = MAX_VERSIONS + 2 from h, evictLoop, if_pos]
  · rw [show (a :: b :: t).eraseIdx 1 = a :: t from rfl]
    apply evictLoop_of_le
    simp only [List.length_cons] at h ⊢
    omega
  · rw [h]
    simp [MAX_VERSIONS]

theorem add_version_match_versions (doc : Document) (vid : String) (now : Int) (c : Json)
    (auto : Bool) {i : Nat} (h : findDup c (doc.versions.drop 1) = some i) :
    (doc.add_version vid now c auto).1.versions = touchAt doc.versions (i + 1) now ∧
    (doc.add_version vid now c auto).2 = (touchAt doc.versions (i + 1) now)[i + 1]? := by
  unfold Document.add_version
  rw [h]
  cases auto <;> simp

theorem add_version_match_meta_auto (doc : Document) (vid : String) (now : Int) (c : Json)
    {i : Nat} (h : findDup c (doc.versions.drop 1) = some i) :
    (doc.add_version vid now c true).1.content = doc.content ∧
    (doc.add_version vid now c true).1.updated_at = doc.updated_at ∧
    (doc.add_version vid now c true).1.is_dirty = doc.is_dirty ∧
    (doc.add_version vid now c true).1.last_save_time = doc.last_save_time ∧
    (doc.add_version vid now c true).1.last_auto_save = some now ∧
    (doc.add_version vid now c true).1.id = doc.id ∧
    (doc.add_version vid now c true).1.title = doc.title ∧
    (doc.add_version vid now c true).1.file_path = doc.file_path ∧
    (doc.add_version vid now c true).1.created_at = doc.created_at := by
  unfold Document.add_version
  rw [h]
  simp

theorem add_version_match_meta_manual (doc : Document) (vid : String) (now : Int) (c : Json)
    {i : Nat} (h : findDup c (doc.versions.drop 1) = some i) :
    (doc.add_version vid now c false).1.content = c ∧
    (doc.add_version vid now c false).1.updated_at = now ∧
    (doc.add_version vid now c false).1.is_dirty = false ∧
    (doc.add_version vid now c false).1.last_save_time = some now ∧
    (doc.add_version vid now c false).1.last_auto_save = doc.last_auto_save := by
  unfold Document.add_version
  rw [h]
  simp

theorem add_version_fresh_versions (doc : Document) (vid : String) (now : Int) (c : Json)
    (auto : Bool) (h : findDup c (doc.versions.drop 1) = none) :
    (doc.add_version vid now c auto).1.versions =
      evict (doc.versions ++ [DocumentVersion.new vid now c auto]) ∧
    (doc.add_version vid now c auto).2 =
      (evict (doc.versions ++ [DocumentVersion.new vid now c auto]))[
        (evict (doc.versions ++ [DocumentVersion.new vid now c auto])).length - 1]? := by
  unfold Document.add_version
  rw [h]
  cases auto <;> simp

theorem add_version_fresh_meta (doc : Document) (vid : String) (now : Int) (c : Json)
    (auto : Bool) (h : findDup c (doc.versions.drop 1) = none) :
    (doc.add_version vid now c auto).1.content = c ∧
    (doc.add_version vid now c auto).1.updated_at = now ∧
    (auto = true → (doc.add_version vid now c auto).1.last_auto_save = some now ∧
      (doc.add_version vid now c auto).1.is_dirty = doc.is_dirty ∧
      (doc.add_version vid now c auto).1.last_save_time = doc.last_save_time) ∧
    (auto = false → (doc.add_version vid now c auto).1.is_dirty = false ∧
      (doc.add_version vid now c auto).1.last_save_time = some now ∧
      (doc.add_version vid now c auto).1.last_auto_save = doc.last_auto_save) := by
  unfold Document.add_version
  rw [h]
  cases auto <;> simp

theorem getElem_zero_ne_nil {l : List DocumentVersion} {b : DocumentVersion}
    (h : l[0]? = some b) : l ≠ [] := by
  cases l <;> simp_all

theorem getElem_drop_one {l : List DocumentVersion} {i : Nat} : (l.drop 1)[i]? = l[i + 1]? := by
  cases l <;> simp

theorem add_version_getElem_zero (doc : Document) (vid : String) (now : Int) (c : Json)
    (auto : Bool) (h0 : doc.versions ≠ []) :
    (doc.add_version vid now c auto).1.versions[0]? = doc.versions[0]? := by
  cases hfd : findDup c (doc.versions.drop 1) with
  | some i =>
    rw [(add_version_match_versions doc vid now c auto hfd).1]
    exact touchAt_getElem_ne now 0 (by omega)
  | none =>
    rw [(add_version_fresh_versions doc vid now c auto hfd).1, evict_getElem_zero]
    have hlen : 0 < doc.versions.length := by
      cases hv : doc.versions with
      | nil => exact absurd hv h0
      | cons a t => simp
    rw [List.getElem?_append_left hlen]

theorem add_version_length_le (doc : Document) (vid : String) (now : Int) (c : Json)
    (auto : Bool) (h : doc.versions.length ≤ MAX_VERSIONS + 1) :
    (doc.add_version vid now c auto).1.versions.length ≤ MAX_VERSIONS + 1 := by
  cases hfd : findDup c (doc.versions.drop 1) with
  | some i =>
    rw [(add_version_match_versions doc vid now c auto hfd).1, touchAt_length]
    exact h
  | none =>
    rw [(add_version_fresh_versions doc vid now c auto hfd).1]
    exact evict_length_le _

theorem applyOps_inv (ops : List AddOp) : ∀ (doc : Document) (b : DocumentVersion),
    doc.versions[0]? = some b → doc.versions.length ≤ MAX_VERSIONS + 1 →
    (applyOps doc ops).versions[0]? = some b ∧
      (applyOps doc ops).versions.length ≤ MAX_VERSIONS + 1 := by
  induction ops with
  | nil => exact fun doc b h1 h2 => ⟨h1, h2⟩
  | cons o rest ih =>
    intro doc b h1 h2
    rw [applyOps]
    apply ih
    · rw [add_version_getElem_zero _ _ _ _ _ (getElem_zero_ne_nil h1)]
      exact h1
    · exact add_version_length_le _ _ _ _ _ h2

theorem document_new_inv (docId vid0 vid1 : String) (now now0 now1 : Int) (title : String)
    (c : Json) :
    (Document.new docId vid0 vid1 now now0 now1 title c).versions[0]? =
      some (DocumentVersion.new vid0 now0 emptyContent false) ∧
    (Document.new docId vid0 vid1 now now0 now1 title c).versions.length ≤ MAX_VERSIONS + 1 := by
  simp only [Document.new]
  split
  · constructor
    · rw [add_version_getElem_zero _ _ _ _ _ (by simp)]
      simp
    · exact add_version_length_le _ _ _ _ _ (by simp [MAX_VERSIONS])
  · simp [MAX_VERSIONS]

/-- C1: for every `Document` created by `Document::new` and every subsequent
sequence of `add_version` calls, the `versions` sequence is never empty,
`versions[0]` always holds the permanent empty-content baseline version
created at construction time (never removed by dedup or eviction), and
`versions.length ≤ MAX_VERSIONS + 1` (at most 11 entries) holds after every
call. -/
theorem C1_version_list_invariant (docId vid0 vid1 : String) (now now0 now1 : Int)
    (title : String) (c : Json) (ops : List AddOp) :
    (applyOps (Document.new docId vid0 vid1 now now0 now1 title c) ops).versions ≠ [] ∧
    (applyOps (Document.new docId vid0 vid1 now now0 now1 title c) ops).versions[0]? =
      some (DocumentVersion.new vid0 now0 emptyContent false) ∧
    (applyOps (Document.new docId vid0 vid1 now now0 now1 title c) ops).versions.length ≤
      MAX_VERSIONS + 1 := by
  obtain ⟨h1, h2⟩ := document_new_inv docId vid0 vid1 now now0 now1 title c
  obtain ⟨g1, g2⟩ := applyOps_inv ops _ _ h1 h2
  exact ⟨getElem_zero_ne_nil g1, g1, g2⟩

/-- C3: after every `add_version(content, false)` call, whether it matched an
existing version or appended a fresh one, `is_dirty` is false, the document
`content` equals the added content, `updated_at` equals the call time and
`last_save_time` is set to the call time. -/
theorem C3_manual_save_metadata (doc : Document) (vid : String) (now : Int) (c : Json) :
    (doc.add_version vid now c false).1.is_dirty = false ∧
    (doc.add_version vid now c false).1.content = c ∧
    (doc.add_version vid now c false).1.updated_at = now ∧
    (doc.add_version vid now c false).1.last_save_time = some now := by
  cases hfd : findDup c (doc.versions.drop 1) with
  | some i =>
    obtain ⟨h1, h2, h3, h4, _⟩ := add_version_match_meta_manual doc vid now c hfd
    exact ⟨h3, h1, h2, h4⟩
  | none =>
    obtain ⟨h1, h2, _, h4⟩ := add_version_fresh_meta doc vid now c false hfd
    obtain ⟨h5, h6, _⟩ := h4 rfl
    exact ⟨h5, h1, h2, h6⟩

/-- C2: an `add_version(content, is_auto_save)` call on a document holding
some non-baseline version with structurally equal content keeps
`versions.length` unchanged, sets that version's `timestamp` to the call
time, leaves every other entry (and every other field of the matched entry)
unchanged, and returns that matched version. -/
theorem C2_duplicate_content_updates_timestamp (doc : Document) (vid : String) (now : Int)
    (c : Json) (auto : Bool)
    (h : ∃ j v, doc.versions[j + 1]? = some v ∧ v.content = c) :
    (doc.add_version vid now c auto).1.versions.length = doc.versions.length ∧
    ∃ i v, 1 ≤ i ∧ doc.versions[i]? = some v ∧ v.content = c ∧
      (doc.add_version vid now c auto).1.versions[i]? = some { v with timestamp := now } ∧
      (∀ j, j ≠ i → (doc.add_version vid now c auto).1.versions[j]? = doc.versions[j]?) ∧
      (doc.add_version vid now c auto).2 = some { v with timestamp := now } := by
  obtain ⟨j, v, hj, hc⟩ := h
  have hsome : (findDup c (doc.versions.drop 1)).isSome :=
    findDup_isSome (by rw [getElem_drop_one]; exact hj) hc
  obtain ⟨i, hfd⟩ := Option.isSome_iff_exists.mp hsome
  obtain ⟨hv, hr⟩ := add_version_match_versions doc vid now c auto hfd
  obtain ⟨w, hw, hwc⟩ := findDup_some hfd
  rw [getElem_drop_one] at hw
  refine ⟨by rw [hv, touchAt_length], i + 1, w, by omega, hw, hwc, ?_, ?_, ?_⟩
  · rw [hv]
    exact touchAt_getElem_self now hw
  · intro j2 hj2
    rw [hv]
    exact touchAt_getElem_ne now j2 hj2
  · rw [hr]
    exact touchAt_getElem_self now hw

theorem C2_duplicate_content_updates_timestamp_witness :
    (sampleDoc.add_version "v9" 5 (Json.str "a") false).1.versions.length =
      sampleDoc.versions.length ∧
    ∃ i v, 1 ≤ i ∧ sampleDoc.versions[i]? = some v ∧ v.content = Json.str "a" ∧
      (sampleDoc.add_version "v9" 5 (Json.str "a") false).1.versions[i]? =
        some { v with timestamp := 5 } ∧
      (∀ j, j ≠ i → (sampleDoc.add_version "v9" 5 (Json.str "a") false).1.versions[j]? =
        sampleDoc.versions[j]?) ∧
      (sampleDoc.add_version "v9" 5 (Json.str "a") false).2 = some { v with timestamp := 5 } :=
  C2_duplicate_content_updates_timestamp sampleDoc "v9" 5 (Json.str "a") false
    ⟨0, DocumentVersion.new "w0" 1 (Json.str "a") false, by decide, rfl⟩

/-- C4: an `add_version(content, true)` call that matches an existing
non-baseline version leaves `content`, `is_dirty`, `updated_at` and
`last_save_time` unchanged, only sets `last_auto_save` to the call time, and
updates the matched version's `timestamp`. -/
theorem C4_autosave_dedup_frame (doc : Document) (vid : String) (now : Int) (c : Json)
    (h : ∃ j v, doc.versions[j + 1]? = some v ∧ v.content = c) :
    (doc.add_version vid now c true).1.content = doc.content ∧
    (doc.add_version vid now c true).1.is_dirty = doc.is_dirty ∧
    (doc.add_version vid now c true).1.updated_at = doc.updated_at ∧
    (doc.add_version vid now c true).1.last_save_time = doc.last_save_time ∧
    (doc.add_version vid now c true).1.last_auto_save = some now ∧
    ∃ i v, 1 ≤ i ∧ doc.versions[i]? = some v ∧ v.content = c ∧
      (doc.add_version vid now c true).1.versions[i]? = some { v with timestamp := now } := by
  obtain ⟨j, v, hj, hc⟩ := h
  have hsome : (findDup c (doc.versions.drop 1)).isSome :=
    findDup_isSome (by rw [getElem_drop_one]; exact hj) hc
  obtain ⟨i, hfd⟩ := Option.isSome_iff_exists.mp hsome
  obtain ⟨m1, m2, m3, m4, m5, _⟩ := add_version_match_meta_auto doc vid now c hfd
  obtain ⟨hv, _⟩ := add_version_match_versions doc vid now c true hfd
  obtain ⟨w, hw, hwc⟩ := findDup_some hfd
  rw [getElem_drop_one] at hw
  refine ⟨m1, m3, m2, m4, m5, i + 1, w, by omega, hw, hwc, ?_⟩
  rw [hv]
  exact touchAt_getElem_self now hw

theorem C4_autosave_dedup_frame_witness :
    (sampleDoc.add_version "v9" 7 (Json.str "a") true).1.content = sampleDoc.content ∧
    (sampleDoc.add_version "v9" 7 (Json.str "a") true).1.is_dirty = sampleDoc.is_dirty ∧
    (sampleDoc.add_version "v9" 7 (Json.str "a") true).1.updated_at = sampleDoc.updated_at ∧
    (sampleDoc.add_version "v9" 7 (Json.str "a") true).1.last_save_time =
      sampleDoc.last_save_time ∧
    (sampleDoc.add_version "v9" 7 (Json.str "a") true).1.last_auto_save = some 7 ∧
    ∃ i v, 1 ≤ i ∧ sampleDoc.versions[i]? = some v ∧ v.content = Json.str "a" ∧
      (sampleDoc.add_version "v9" 7 (Json.str "a") true).1.versions[i]? =
        some { v with timestamp := 7 } :=
  C4_autosave_dedup_frame sampleDoc "v9" 7 (Json.str "a")
    ⟨0, DocumentVersion.new "w0" 1 (Json.str "a") false, by decide, rfl⟩

/-- C9: both vector accesses that the source performs with `get_unchecked`
inside `add_version` are always in bounds: the embedded bounds-checked
lookups (the returned `Option`) always succeed, in the match branch because
the index comes from a successful `position()` search, and in the fresh
branch because a version was just pushed and the eviction loop never empties
the vector. -/
theorem C9_unchecked_indexing_in_bounds (doc : Document) (vid : String) (now : Int) (c : Json)
    (auto : Bool) : ((doc.add_version vid now c auto).2).isSome = true := by
  cases hfd : findDup c (doc.versions.drop 1) with
  | some i =>
    rw [(add_version_match_versions doc vid now c auto hfd).2]
    obtain ⟨w, hw, _⟩ := findDup_some hfd
    rw [getElem_drop_one] at hw
    rw [touchAt_getElem_self now hw]
    rfl
  | none =>
    rw [(add_version_fresh_versions doc vid now c auto hfd).2]
    have h0 : ((evict (doc.versions ++ [DocumentVersion.new vid now c auto]))[0]?).isSome := by
      rw [evict_getElem_zero, List.getElem?_eq_getElem (by simp)]
      rfl
    have hpos : 0 < (evict (doc.versions ++ [DocumentVersion.new vid now c auto])).length := by
      rcases he : evict (doc.versions ++ [DocumentVersion.new vid now c auto]) with _ | ⟨a, t⟩
      · rw [he] at h0
        simp at h0
      · simp
    rw [List.getElem?_eq_getElem (by omega)]
    rfl

theorem windowStep_length_le {w : List Json} (c : Json) (h : w.length ≤ MAX_VERSIONS) :
    (windowStep w c).length ≤ MAX_VERSIONS := by
  rw [windowStep]
  split
  · next hlt =>
    simp only [List.length_append, List.length_cons, List.length_nil]
    omega
  · next hge =>
    simp only [List.length_append, List.length_cons, List.length_nil, List.length_tail,
               MAX_VERSIONS] at h hge ⊢
    omega

theorem lastN_cons_of_len (a : Json) (l : List Json) (h : MAX_VERSIONS ≤ l.length) :
    lastN (a :: l) = lastN l := by
  rw [lastN, lastN]
  simp only [List.length_cons]
  rw [show l.length + 1 - MAX_VERSIONS = (l.length - MAX_VERSIONS) + 1 from by omega,
      List.drop_succ_cons]

theorem windowFold_lastN : ∀ (cs w : List Json), w.length ≤ MAX_VERSIONS →
    windowFold w cs = lastN (w ++ cs)
  | [], w => fun h => by
      rw [windowFold, lastN, List.append_nil, show w.length - MAX_VERSIONS = 0 from by omega,
          List.drop_zero]
  | c :: cs, w => fun h => by
      rw [windowFold, windowFold_lastN cs (windowStep w c) (windowStep_length_le c h),
          windowStep]
      split
      · next hlt =>
        rw [List.append_assoc, List.singleton_append]
      · next hge =>
        cases w with
        | nil => exact absurd (by simp [MAX_VERSIONS]) hge
        | cons a t =>
          have hlen : MAX_VERSIONS ≤ (t ++ c :: cs).length := by
            simp only [List.length_append, List.length_cons]
            simp only [List.length_cons, MAX_VERSIONS] at h hge ⊢
            omega
          simp only [List.tail_cons, List.append_assoc, List.singleton_append, List.cons_append]
          exact (lastN_cons_of_len a _ hlen).symm

theorem applyOps_window : ∀ (ops : List AddOp) (doc : Document) (w : List Json),
    doc.versions.map DocumentVersion.content = emptyContent :: w →
    w.length ≤ MAX_VERSIONS →
    (w ++ ops.map AddOp.content).Pairwise (· ≠ ·) →
    (applyOps doc ops).versions.map DocumentVersion.content =
      emptyContent :: windowFold w (ops.map AddOp.content)
  | [], doc, w => fun h hw hp => by
      rw [applyOps, List.map_nil, windowFold]
      exact h
  | o :: ops, doc, w => fun h hw hp => by
      rw [applyOps]
      obtain ⟨v0, vs, hdv, hv0, hvs⟩ : ∃ v0 vs, doc.versions = v0 :: vs ∧
          v0.content = emptyContent ∧ vs.map DocumentVersion.content = w := by
        cases hdv : doc.versions with
        | nil => rw [hdv] at h; simp at h
        | cons v0 vs =>
          rw [hdv] at h
          simp only [List.map_cons, List.cons.injEq] at h
          exact ⟨v0, vs, rfl, h.1, h.2⟩
      rw [List.map_cons] at hp
      have hcw : ∀ x ∈ w, x ≠ o.content := fun x hx =>
        (List.pairwise_append.mp hp).2.2 x hx o.content (by simp)
      have hfd : findDup o.content (doc.versions.drop 1) = none := by
        rw [hdv, List.drop_succ_cons, List.drop_zero]
        apply findDup_none
        intro v hv
        exact hcw v.content (by rw [← hvs]; exact List.mem_map_of_mem _ hv)
      have hversions := (add_version_fresh_versions doc o.vid o.now o.content o.is_auto_save hfd).1
      have hwlen : w.length = vs.length := by rw [← hvs, List.length_map]
      have hnvc : (DocumentVersion.new o.vid o.now o.content o.is_auto_save).content =
          o.content := rfl
      by_cases hlen : w.length < MAX_VERSIONS
      · have heq : evict (doc.versions ++ [DocumentVersion.new o.vid o.now o.content
            o.is_auto_save]) = v0 :: (vs ++ [DocumentVersion.new o.vid o.now o.content
            o.is_auto_save]) := by
          rw [hdv, List.cons_append]
          apply evict_of_le
          simp only [List.length_cons, List.length_append, List.length_nil, MAX_VERSIONS]
          simp only [MAX_VERSIONS] at hlen
          omega
        apply applyOps_window ops _ (windowStep w o.content)
        · rw [hversions, heq]
          simp only [List.map_cons, List.map_append, List.map_cons, List.map_nil, hv0, hvs, hnvc]
          rw [windowStep, if_pos hlen]
        · exact windowStep_length_le o.content hw
        · rw [windowStep, if_pos hlen, List.append_assoc, List.singleton_append]
          exact hp
      · obtain ⟨b, t, rfl⟩ : ∃ b t, vs = b :: t := by
          cases vs with
          | nil =>
            rw [hwlen] at hlen
            simp [MAX_VERSIONS] at hlen
          | cons b t => exact ⟨b, t, rfl⟩
        have heq : evict (doc.versions ++ [DocumentVersion.new o.vid o.now o.content
            o.is_auto_save]) = v0 :: (t ++ [DocumentVersion.new o.vid o.now o.content
            o.is_auto_save]) := by
          rw [hdv, List.cons_append, List.cons_append]
          apply evict_cons_cons
          simp only [List.length_cons, List.length_append, List.length_nil, MAX_VERSIONS]
          simp only [List.length_cons, MAX_VERSIONS] at hlen hw hwlen
          omega
        obtain ⟨x, w', rfl⟩ : ∃ x w', w = x :: w' := by
          rw [List.map_cons] at hvs
          exact ⟨b.content, t.map DocumentVersion.content, hvs.symm⟩
        have hw' : w' = t.map DocumentVersion.content := by
          rw [List.map_cons, List.cons.injEq] at hvs
          exact hvs.2.symm
        apply applyOps_window ops _ (windowStep (x :: w') o.content)
        · rw [hversions, heq]
          simp only [List.map_cons, List.map_append, List.map_nil, hv0, hnvc]
          rw [windowStep, if_neg hlen, List.tail_cons, hw']
        · exact windowStep_length_le o.content hw
        · rw [windowStep, if_neg hlen, List.tail_cons, List.append_assoc,
              List.singleton_append]
          rw [List.cons_append] at hp
          exact hp.sublist (List.sublist_cons_self x (w' ++ o.content :: List.map AddOp.content ops))

/-- C5: starting from a `Document` created with empty initial content,
adding 100 pairwise-distinct non-empty contents sequentially leaves exactly
`MAX_VERSIONS + 1 = 11` versions; `versions[0]` is still the empty baseline,
the retained non-baseline contents are exactly the last ten added contents
(indices 90..99, so eviction always removed the oldest non-baseline entry at
index 1), `versions[1]` holds the 90th added content and the last version
holds the 99th. -/
theorem C5_hundred_distinct_adds (docId vid0 vid1 : String) (now now0 now1 : Int)
    (title : String) (ops : List AddOp)
    (h100 : ops.length = 100)
    (hdist : (ops.map AddOp.content).Pairwise (· ≠ ·))
    (hne : ∀ o ∈ ops, o.content ≠ emptyContent) :
    (applyOps (Document.new docId vid0 vid1 now now0 now1 title emptyContent)
        ops).versions.length = MAX_VERSIONS + 1 ∧
    (applyOps (Document.new docId vid0 vid1 now now0 now1 title emptyContent)
        ops).versions[0]? = some (DocumentVersion.new vid0 now0 emptyContent false) ∧
    (applyOps (Document.new docId vid0 vid1 now now0 now1 title emptyContent)
        ops).versions.map DocumentVersion.content =
      emptyContent :: (ops.map AddOp.content).drop 90 ∧
    (applyOps (Document.new docId vid0 vid1 now now0 now1 title emptyContent)
        ops).versions[1]?.map DocumentVersion.content = (ops.map AddOp.content)[90]? ∧
    ((applyOps (Document.new docId vid0 vid1 now now0 now1 title emptyContent)
        ops).versions.map DocumentVersion.content).getLast? = (ops.map AddOp.content)[99]? := by
  have hbase : (Document.new docId vid0 vid1 now now0 now1 title
      emptyContent).versions.map DocumentVersion.content = emptyContent :: [] := by
    simp [Document.new, DocumentVersion.new]
  have hwin := applyOps_window ops _ [] hbase (by simp [MAX_VERSIONS]) (by simpa using hdist)
  rw [windowFold_lastN _ [] (by simp [MAX_VERSIONS]), List.nil_append, lastN,
      List.length_map, h100, show 100 - MAX_VERSIONS = 90 from by simp [MAX_VERSIONS]] at hwin
  have hclen : (ops.map AddOp.content).length = 100 := by rw [List.length_map, h100]
  obtain ⟨hinv0, hinv1⟩ := document_new_inv docId vid0 vid1 now now0 now1 title emptyContent
  obtain ⟨hz, _⟩ := applyOps_inv ops _ _ hinv0 hinv1
  have hdlen : (applyOps (Document.new docId vid0 vid1 now now0 now1 title emptyContent)
      ops).versions.length = MAX_VERSIONS + 1 := by
    have hml := List.length_map (applyOps (Document.new docId vid0 vid1 now now0 now1 title
      emptyContent) ops).versions DocumentVersion.content
    rw [hwin] at hml
    simp only [List.length_cons, List.length_drop, hclen] at hml
    rw [← hml]
    simp [MAX_VERSIONS]
  refine ⟨hdlen, hz, hwin, ?_, ?_⟩
  · rw [← List.getElem?_map, hwin, List.getElem?_cons_succ, List.getElem?_drop]
  · rw [hwin, List.getLast?_eq_getElem?]
    simp only [List.length_cons, List.length_drop, hclen]
    rw [show 100 - 90 + 1 - 1 = 9 + 1 from by omega, List.getElem?_cons_succ,
        List.getElem?_drop]

theorem C5_hundred_distinct_adds_witness :
    (applyOps (Document.new "d" "b" "w" 0 0 0 "T" emptyContent) ops100).versions.length =
      MAX_VERSIONS + 1 ∧
    (applyOps (Document.new "d" "b" "w" 0 0 0 "T" emptyContent) ops100).versions[0]? =
      some (DocumentVersion.new "b" 0 emptyContent false) ∧
    (applyOps (Document.new "d" "b" "w" 0 0 0 "T" emptyContent) ops100).versions.map
        DocumentVersion.content = emptyContent :: (ops100.map AddOp.content).drop 90 ∧
    (applyOps (Document.new "d" "b" "w" 0 0 0 "T" emptyContent) ops100).versions[1]?.map
        DocumentVersion.content = (ops100.map AddOp.content)[90]? ∧
    ((applyOps (Document.new "d" "b" "w" 0 0 0 "T" emptyContent) ops100).versions.map
        DocumentVersion.content).getLast? = (ops100.map AddOp.content)[99]? :=
  C5_hundred_distinct_adds "d" "b" "w" 0 0 0 "T" ops100 (by decide) (by decide) (by decide)

theorem add_version_file_path (doc : Document) (vid : String) (now : Int) (c : Json)
    (auto : Bool) : (doc.add_version vid now c auto).1.file_path = doc.file_path := by
  cases hfd : findDup c (doc.versions.drop 1) with
  | some i =>
    unfold Document.add_version
    rw [hfd]
    cases auto <;> simp
  | none =>
    unfold Document.add_version
    rw [hfd]
    cases auto <;> simp

theorem document_new_file_path (docId vid0 vid1 : String) (now now0 now1 : Int)
    (title : String) (c : Json) :
    (Document.new docId vid0 vid1 now now0 now1 title c).file_path = none := by
  simp only [Document.new]
  split
  · rw [add_version_file_path]
  · rfl

/-- C6: the claim says an auto-save invocation produces a new auto-save
version and recovery snapshot exactly when at least `AUTO_SAVE_INTERVAL`
(30 s) has elapsed since the document's `last_auto_save`. The code cannot do
this: `auto_save_document` constructs a fresh `Document` via `Document::new`,
whose `file_path` is always `None`, so every invocation returns at the
`file_path` check before the interval gate is ever consulted — no auto-save
version or snapshot is ever produced, no matter how much time has elapsed.
This theorem exhibits that defect: every invocation returns the freshly
built document unchanged and reports that no snapshot was written. -/
theorem C6_auto_save_is_dead_code (docId vid0 vid1 vid2 : String) (tNew t0 t1 now : Int)
    (content : Json) :
    auto_save_document docId vid0 vid1 vid2 tNew t0 t1 now content =
      (Document.new docId vid0 vid1 tNew t0 t1 "Auto-saved Document" content, false) := by
  simp only [auto_save_document]
  rw [if_pos (document_new_file_path docId vid0 vid1 tNew t0 t1 "Auto-saved Document" content)]

/-- C7: `recover_document` fails with `NotFound` exactly when no recovery
snapshot exists for the requested id, and when a valid snapshot exists it
returns the deserialized document with `is_dirty = true`. -/
theorem C7_recover_semantics (files : List (String × FileData)) (doc_id : String) :
    (recover_document files doc_id = .error .NotFound ↔ files.lookup doc_id = none) ∧
    ∀ d, files.lookup doc_id = some (.valid d) →
      recover_document files doc_id = .ok { d with is_dirty := true } := by
  refine ⟨⟨?_, ?_⟩, ?_⟩
  · intro h
    cases hl : files.lookup doc_id with
    | none => rfl
    | some fd =>
      cases fd <;> unfold recover_document at h <;> rw [hl] at h <;> simp at h
  · intro h
    unfold recover_document
    rw [h]
  · intro d h
    unfold recover_document
    rw [h]

theorem C7_recover_semantics_witness :
    recover_document sampleFiles "missing" = .error .NotFound ∧
    recover_document sampleFiles "doc1" = .ok { sampleDoc with is_dirty := true } :=
  ⟨(C7_recover_semantics sampleFiles "missing").1.mpr rfl,
   (C7_recover_semantics sampleFiles "doc1").2 sampleDoc rfl⟩

/-- C10: enumerating recovery snapshots when the recovery directory does not
exist succeeds with the empty list (so `list_recovery_files` also returns no
documents), and every entry the enumeration ever returns is a regular file
with a `.json` extension. -/
theorem C10_missing_dir_and_json_filter (st : RecoveryDirState) :
    (st.present = false → get_recovery_files st = .ok [] ∧ list_recovery_files st = .ok []) ∧
    (∀ l e, get_recovery_files st = .ok l → e ∈ l →
      e.isFile = true ∧ e.ext = some "json") := by
  constructor
  · intro h
    have h1 : get_recovery_files st = .ok [] := by
      unfold get_recovery_files
      rw [if_pos h]
    refine ⟨h1, ?_⟩
    unfold list_recovery_files
    rw [h1]
    rfl
  · intro l e hl he
    unfold get_recovery_files at hl
    split at hl
    · simp only [Except.ok.injEq] at hl
      subst hl
      simp at he
    · split at hl
      · simp at hl
      · next entries heq =>
        simp only [Except.ok.injEq] at hl
        subst hl
        have hm := List.mem_filter.mp he
        have hb := hm.2
        simp only [Bool.and_eq_true, beq_iff_eq] at hb
        exact hb

theorem C10_missing_dir_and_json_filter_witness :
    (get_recovery_files absentDir = .ok [] ∧ list_recovery_files absentDir = .ok []) ∧
    (sampleEntry.isFile = true ∧ sampleEntry.ext = some "json") :=
  ⟨(C10_missing_dir_and_json_filter absentDir).1 rfl,
   (C10_missing_dir_and_json_filter presentDir).2 [sampleEntry] sampleEntry rfl
     (List.mem_singleton.mpr rfl)⟩

theorem documentVersion_roundtrip (v : DocumentVersion) :
    DocumentVersion.fromJson (DocumentVersion.toJson v) = some v := rfl

theorem decodeVersions_map (vs : List DocumentVersion) :
    decodeVersions (vs.map DocumentVersion.toJson) = some vs := by
  induction vs with
  | nil => rfl
  | cons v rest ih =>
    rw [List.map_cons, decodeVersions]
    simp [documentVersion_roundtrip v, ih]

/-- C8: serializing a `Document` to the persisted JSON format and
deserializing the result yields a `Document` equal to the original in all
fields, versions included. -/
theorem C8_document_roundtrip (d : Document) :
    Document.fromJson (Document.toJson d) = some d := by
  cases d with
  | mk id title content file_path versions created_at updated_at is_dirty last_auto_save
      last_save_time =>
    cases file_path <;> cases last_auto_save <;> cases last_save_time <;>
      simp [Document.toJson, Document.fromJson, getField, jsonOfOptStr, jsonOfOptInt,
            Json.asStr, Json.asInt, Json.asBool, Json.asOptStr, Json.asOptInt, Json.asArr,
            decodeVersions_map]
